import Mathlib

/-!
Shallow embedding of the Tetris engine (src/util.ts, src/types.ts, src/state.ts).

Grid cells are `Option String` (`none` renders the TS `null`); shape cells are
`Nat` flags (truthy = nonzero).  TS numbers used as positions are embedded as
`Int`; scores, levels and RNG seeds are `Nat`.  The TS `Array.some(f)` /
`Array.map(f)` callbacks that receive the element index are rendered by the
index-passing recursors `anyIdx` / `mapIdx` below.

The RNG's arithmetic is performed by JavaScript on IEEE-754 doubles: the
products `a * seed` exceed 2^53 for large seeds, so each arithmetic step
rounds to 53 significant bits.  `rd` is that rounding (round to nearest, ties
to even), and `RNG.hash` composes it exactly as the expression
`(RNG.a * seed + RNG.c) % RNG.m` is evaluated on doubles.
-/

/-- `Array.prototype.some` with the index-aware callback of the source. -/
def anyIdx : List α → (Nat → α → Bool) → Bool
  | [], _ => false
  | a :: l, f => f 0 a || anyIdx l (fun i x => f (i + 1) x)

/-- `Array.prototype.map` with the index-aware callback of the source. -/
def mapIdx : List α → (Nat → α → β) → List β
  | [], _ => []
  | a :: l, f => f 0 a :: mapIdx l (fun i x => f (i + 1) x)

abbrev Cell := Option String
abbrev Row := List Cell
abbrev Grid := List Row
abbrev Shape := List (List Nat)

/-- `Block` of types.ts: shape matrix plus color tag. -/
structure Block where
  shape : Shape
  color : String
  deriving DecidableEq

namespace Constants

def GRID_WIDTH : Int := 10
def GRID_HEIGHT : Int := 20
/-- `10 / 2 - 2` in types.ts. -/
def STARTING_BLOCK_X : Int := 3
def STARTING_LEVEL : Nat := 1

end Constants

/-- Floor of the base-2 logarithm, by structural recursion on a fuel bound
(`log2F n n` computes it for every positive `n`). -/
def log2F : Nat → Nat → Nat
  | 0, _ => 0
  | fuel + 1, n => if n < 2 then 0 else log2F fuel (n / 2) + 1

/-- Round a nonnegative integer to the nearest IEEE-754 double
(53 significant bits, ties to even).  Integers below `2^53` are exact. -/
def rd (x : Nat) : Nat :=
  if x < 2 ^ 53 then x
  else
    let k := log2F x x - 52
    let p := 2 ^ k
    let q := x / p
    let r := x % p
    if 2 * r < p then q * p
    else if p < 2 * r then (q + 1) * p
    else (if q % 2 = 0 then q else q + 1) * p

/-- `RNG` of util.ts: an immutable LCG stream, identified by its seed. -/
structure RNG where
  seed : Nat
  deriving DecidableEq

namespace RNG

def m : Nat := 2 ^ 31
def a : Nat := 1103515245
def c : Nat := 12345

/-- `RNG.hash` of util.ts: `(RNG.a * seed + RNG.c) % RNG.m`, evaluated the way
JavaScript evaluates it on doubles (each of the product and the sum is rounded
to 53 bits; the remainder of two integral doubles below `2^62` is exact). -/
def hash (seed : Nat) : Nat := rd (rd (a * seed) + c) % m

/-- `RNG.scale` of util.ts: `Math.floor((7 * hash) / (RNG.m - 1))`.  For
arguments below `2^31` the double evaluation agrees with exact integer
division, which is how it is rendered here. -/
def scale (h : Nat) : Nat := 7 * h / (m - 1)

def next (r : RNG) : RNG := ⟨hash r.seed⟩

def currentValue (r : RNG) : Nat := scale r.seed

end RNG

/-- The 7-entry piece catalog of util.ts. -/
def shapes : List Block :=
  [ ⟨[[1, 1, 1, 1], [0, 0, 0, 0], [0, 0, 0, 0], [0, 0, 0, 0]], "cyan"⟩,
    ⟨[[1, 1], [1, 1]], "yellow"⟩,
    ⟨[[0, 1, 0], [1, 1, 1], [0, 0, 0]], "purple"⟩,
    ⟨[[1, 0, 0], [1, 1, 1], [0, 0, 0]], "orange"⟩,
    ⟨[[0, 0, 1], [1, 1, 1], [0, 0, 0]], "blue"⟩,
    ⟨[[0, 1, 1], [1, 1, 0], [0, 0, 0]], "red"⟩,
    ⟨[[1, 1, 0], [0, 1, 1], [0, 0, 0]], "green"⟩ ]

/-- `randomBlock` of util.ts: `[shapes[rng.currentValue()], rng.next()]`.
An out-of-range selector (the JS `undefined`) is rendered by a junk block. -/
def randomBlock (rng : RNG) : Block × RNG :=
  ((shapes.get? rng.currentValue).getD ⟨[], ""⟩, rng.next)

/-- `rotateMatrix` of util.ts (`matrix.map((row, i) => row.map((_, j) =>
matrix[N - j][i]))` with `N = matrix.length - 1`). -/
def rotateMatrix (matrix : Shape) : Shape :=
  let N := matrix.length - 1
  mapIdx matrix (fun i row =>
    mapIdx row (fun j _ => (((matrix.get? (N - j)).getD []).get? i).getD 0))

/-- Occupancy test `grid[gridY][gridX]` (both indices already checked to be
in range by the caller; out-of-range access reads as empty). -/
def cellOcc (grid : Grid) (y x : Int) : Bool :=
  ((((grid.get? y.toNat).getD []).get? x.toNat).getD none).isSome

/-- `isCollision` of state.ts. -/
def isCollision (grid : Grid) (block : Block) (x y : Int) : Bool :=
  anyIdx block.shape (fun rowIdx row =>
    anyIdx row (fun cellIdx cell =>
      if cell = 0 then false
      else
        let gridX : Int := x + cellIdx
        let gridY : Int := y + rowIdx
        decide (gridX < 0) || decide (Constants.GRID_WIDTH ≤ gridX) ||
          decide (gridY < 0) || decide (Constants.GRID_HEIGHT ≤ gridY) ||
          cellOcc grid gridY gridX))

/-- The truthiness of `block.shape[rowIdx - y]?.[cellIdx - x]` in `updateRow`
of state.ts: a negative or out-of-range index reads as `undefined` (falsy). -/
def shapeTruthy (shape : Shape) (ri ci : Int) : Bool :=
  decide (0 ≤ ri) && decide (0 ≤ ci) &&
    decide ((((shape.get? ri.toNat).getD []).get? ci.toNat).getD 0 ≠ 0)

/-- `updateGrid` of state.ts (burning the block into the grid), with
`updateRow` inlined. -/
def updateGrid (grid : Grid) (block : Block) (x y : Int) : Grid :=
  mapIdx grid (fun rowIdx row =>
    mapIdx row (fun cellIdx cell =>
      if shapeTruthy block.shape ((rowIdx : Int) - y) ((cellIdx : Int) - x)
      then some block.color else cell))

/-- `isGameEnd` of state.ts: some cell of row 0 is occupied. -/
def isGameEnd (grid : Grid) : Bool :=
  ((grid.get? 0).getD []).any (fun cell => cell.isSome)

/-- `linesCleared` of state.ts: the (ascending) indices of the fully occupied
rows, accumulated left to right exactly as the source's `reduce` does. -/
def linesClearedFrom : Nat → Grid → List Nat
  | _, [] => []
  | i, row :: g =>
    if row.all (fun cell => cell.isSome) then i :: linesClearedFrom (i + 1) g
    else linesClearedFrom (i + 1) g

def linesCleared (grid : Grid) : List Nat := linesClearedFrom 0 grid

def emptyRow : Row := List.replicate 10 none

/-- `updateGridAfterClearance` of state.ts: for each cleared index in order,
`splice(y, 1)` (= `eraseIdx y`) then `unshift` an empty row. -/
def updateGridAfterClearance (grid : Grid) (clearedLines : List Nat) : Grid :=
  clearedLines.foldl (fun g y => emptyRow :: g.eraseIdx y) grid

/-- `State` of types.ts. -/
structure State where
  block : Block
  blockX : Int
  blockY : Int
  grid : Grid
  nextBlock : Block
  RNG : RNG
  score : Nat
  level : Nat
  highScore : Nat
  gameEnd : Bool
  deriving DecidableEq

/-- `scoreUpdates` of state.ts. -/
def scoreUpdates (s : State) (clearedLineCount : Nat) : Nat × Nat × Nat :=
  let newScore := s.score + clearedLineCount * 100
  let newLevel := newScore / 1000 + 1
  let newHighScore := max newScore s.highScore
  (newScore, newLevel, newHighScore)

/-- The initial state of state.ts, parametrized by the wall-clock milliseconds
`ms` that seed `initial_RNG = new RNG()` (whose seed is `RNG.hash(ms)`). -/
def initRNG (ms : Nat) : RNG := ⟨RNG.hash ms⟩

def initState (ms : Nat) : State :=
  { block := (randomBlock (initRNG ms)).1
    nextBlock := (randomBlock (randomBlock (initRNG ms)).2).1
    blockX := Constants.STARTING_BLOCK_X
    blockY := 0
    RNG := (randomBlock (randomBlock (initRNG ms)).2).2
    grid := List.replicate 20 (List.replicate 10 none)
    score := 0
    level := Constants.STARTING_LEVEL
    highScore := 0
    gameEnd := false }

inductive Dir | x | y
  deriving DecidableEq

/-- The data of a `Move` action of state.ts. -/
structure MoveA where
  dir : Dir
  mag : Int

/-- `Move.apply` of state.ts, verbatim: on a downward collision the block is
burned; if the burned grid's top row is occupied only the `gameEnd` flag is
set (the burned grid itself is discarded); otherwise full rows are cleared,
scores updated and the next block spawned. -/
def moveApply (mv : MoveA) (s : State) : State :=
  let newBlockX := s.blockX + (if mv.dir = Dir.x then mv.mag else 0)
  let newBlockY := s.blockY + (if mv.dir = Dir.y then mv.mag else 0)
  if isCollision s.grid s.block newBlockX newBlockY then
    if mv.dir = Dir.y ∧ 0 < mv.mag then
      let newGrid := updateGrid s.grid s.block s.blockX s.blockY
      if isGameEnd newGrid then { s with gameEnd := true }
      else
        let clearedLines := linesCleared newGrid
        let updatedGrid := updateGridAfterClearance newGrid clearedLines
        let u := scoreUpdates s clearedLines.length
        { s with
          block := s.nextBlock
          nextBlock := (randomBlock s.RNG).1
          blockX := Constants.STARTING_BLOCK_X
          blockY := 0
          RNG := (randomBlock s.RNG).2
          grid := updatedGrid
          score := u.1
          level := u.2.1
          highScore := u.2.2 }
    else s
  else { s with blockX := newBlockX, blockY := newBlockY }

/-- `Restart.apply` of state.ts: the module-level initial state with the RNG
advanced one step and the high score carried over. -/
def restartApply (ms : Nat) (s : State) : State :=
  { initState ms with RNG := (randomBlock s.RNG).2, highScore := s.highScore }

def offsets : List (Int × Int) := [(0, 0), (1, 0), (-1, 0), (0, 1), (0, -1)]

/-- `Rotate.apply` of state.ts: rotate and take the first wall-kick offset at
which the rotated block does not collide; otherwise a no-op. -/
def rotateApply (s : State) : State :=
  let rotatedBlock := rotateMatrix s.block.shape
  match offsets.find? (fun o =>
      !isCollision s.grid { s.block with shape := rotatedBlock }
        (s.blockX + o.1) (s.blockY + o.2)) with
  | some o =>
    { s with
      block := { s.block with shape := rotatedBlock }
      blockX := s.blockX + o.1
      blockY := s.blockY + o.2 }
  | none => s

/-- `Drop.findNewY` of state.ts is general recursion (walk down until the next
step collides); it is rendered with an explicit fuel and answers `none` when
the fuel runs out before a collision is found. -/
def findNewYF (fuel : Nat) (grid : Grid) (block : Block) (blockX blockY : Int) :
    Option Int :=
  match fuel with
  | 0 => none
  | fuel + 1 =>
    if isCollision grid block blockX (blockY + 1) then some blockY
    else findNewYF fuel grid block blockX (blockY + 1)

/-- Fuel that provably suffices for `findNewYF` whenever the shape has a
filled cell: one more step than the distance down to below the grid. -/
def dropFuel (s : State) : Nat :=
  (Constants.GRID_HEIGHT + 1 - s.blockY).toNat + 1

/-- `Drop.apply` of state.ts: `new Move("y", newY - s.blockY).apply(s)` with
`newY = findNewY(...)`.  On fuel exhaustion (the source diverges there) the
state is returned unchanged. -/
def dropApply (s : State) : State :=
  match findNewYF (dropFuel s) s.grid s.block s.blockX s.blockY with
  | some newY => moveApply ⟨Dir.y, newY - s.blockY⟩ s
  | none => s

/-- The closed alphabet of actions the driver (main.ts) can emit. -/
inductive Act
  | move (d : Dir) (mag : Int)
  | rot
  | restart
  | drop
  deriving DecidableEq

def applyAct (ms : Nat) : Act → State → State
  | .move d mag, s => moveApply ⟨d, mag⟩ s
  | .rot, s => rotateApply s
  | .restart, s => restartApply ms s
  | .drop, s => dropApply s

/-- States reachable from the initial state (of the run seeded by `ms`) by
finitely many actions. -/
inductive Reachable (ms : Nat) : State → Prop
  | init : Reachable ms (initState ms)
  | step {s : State} (h : Reachable ms s) (a : Act) : Reachable ms (applyAct ms a s)

theorem rd_eq_of_lt {x : Nat} (h : x < 2 ^ 53) : rd x = x := by
  unfold rd
  rw [if_pos h]

/-- C5 (amended): while the dominant term stays below `2^53` no rounding
happens, so the double evaluation of `RNG.hash` agrees with the exact
linear-congruential step. -/
theorem hash_exact_below_two_pow_53 (seed : Nat)
    (h : RNG.a * seed + RNG.c < 2 ^ 53) :
    RNG.hash seed = (RNG.a * seed + RNG.c) % RNG.m := by
  have h1 : RNG.a * seed < 2 ^ 53 := lt_of_le_of_lt (Nat.le_add_right _ _) h
  unfold RNG.hash
  rw [rd_eq_of_lt h1, rd_eq_of_lt h]

/-- Witness for C5's amended theorem at seed 12345. -/
theorem hash_exact_below_two_pow_53_witness :
    RNG.a * 12345 + RNG.c < 2 ^ 53 ∧
      RNG.hash 12345 = (RNG.a * 12345 + RNG.c) % RNG.m :=
  ⟨by decide, hash_exact_below_two_pow_53 12345 (by decide)⟩

/-- C5 (counterexample): at seed 8162280 the product `a * seed` exceeds
`2^53`, the double arithmetic rounds, and `RNG.hash` misses the exact value
`(a * seed + c) mod 2^31` by one. -/
theorem hash_not_exact_at_8162280 :
    RNG.hash 8162280 ≠ (RNG.a * 8162280 + RNG.c) % RNG.m ∧
      RNG.hash 8162280 = 1159229952 ∧
      (RNG.a * 8162280 + RNG.c) % RNG.m = 1159229953 :=
  ⟨by decide, by decide, by decide⟩

/-- C3 (amended): for every seed strictly below `2^31 - 1` the selector
`currentValue` lands in `[0, 6]` and the catalog lookup of `randomBlock`
hits one of the 7 entries. -/
theorem currentValue_le_six (r : RNG) (h : r.seed < RNG.m - 1) :
    r.currentValue ≤ 6 ∧ (shapes.get? r.currentValue).isSome = true := by
  have h7 : r.currentValue < 7 := by
    have hlt : 7 * r.seed < (RNG.m - 1) * 7 := by
      have hm : RNG.m - 1 = 2147483647 := by decide
      rw [hm] at h ⊢
      omega
    exact Nat.div_lt_of_lt_mul hlt
  refine ⟨Nat.lt_succ_iff.mp h7, ?_⟩
  have hlen : r.currentValue < shapes.length := by
    have : shapes.length = 7 := rfl
    rw [this]
    exact h7
  rw [List.get?_eq_get hlen]
  rfl

/-- Witness for C3's amended theorem at seed 5. -/
theorem currentValue_le_six_witness :
    (RNG.mk 5).seed < RNG.m - 1 ∧
      ((RNG.mk 5).currentValue ≤ 6 ∧
        (shapes.get? (RNG.mk 5).currentValue).isSome = true) :=
  ⟨by decide, currentValue_le_six (RNG.mk 5) (by decide)⟩

/-- C3 (counterexample): the seed `2^31 - 1` lies in the claimed range
`[0, 2^31)` yet `currentValue` evaluates to 7, so the catalog lookup of
`randomBlock` reads past the 7 entries (the JS `undefined`). -/
theorem currentValue_seven_at_top_seed :
    2147483647 < RNG.m ∧ (RNG.mk 2147483647).currentValue = 7 ∧
      ¬(RNG.mk 2147483647).currentValue ≤ 6 ∧
      shapes.get? (RNG.mk 2147483647).currentValue = none := by
  refine ⟨by decide, by decide, by decide, by decide⟩

/-- C4 (amended): `Restart` rebuilds the module-level initial state, carrying
over the current high score unchanged (no maximum is taken) and advancing the
current RNG by one step. -/
theorem restart_resets_carrying_highScore (ms : Nat) (s : State) :
    restartApply ms s =
        { initState ms with RNG := s.RNG.next, highScore := s.highScore } ∧
      (restartApply ms s).score = 0 ∧
      (restartApply ms s).level = 1 ∧
      (restartApply ms s).gameEnd = false ∧
      (restartApply ms s).RNG = s.RNG.next ∧
      (restartApply ms s).highScore = s.highScore :=
  ⟨rfl, rfl, rfl, rfl, rfl, rfl⟩

/-- C1 (amended): on a downward collision whose burn occupies the top row,
`Move.apply` only sets `gameEnd`; every other field — the grid included — is
unchanged (the burned grid is discarded, not stored). -/
theorem move_down_gameEnd_sets_flag_only (s : State) (m : Int) (hm : 0 < m)
    (hc : isCollision s.grid s.block s.blockX (s.blockY + m) = true)
    (hg : isGameEnd (updateGrid s.grid s.block s.blockX s.blockY) = true) :
    moveApply ⟨Dir.y, m⟩ s = { s with gameEnd := true } := by
  simp only [moveApply]
  rw [if_pos]
  · rw [if_pos ⟨trivial, hm⟩, if_pos hg]
  · simpa using hc

/-- A 1×1 red block sitting at the origin over a grid whose only occupied
cell is at row 1, column 0: moving down collides, and the burn would occupy
the top row. -/
def c1State : State :=
  { block := ⟨[[1]], "red"⟩
    blockX := 0
    blockY := 0
    grid := List.replicate 10 none ::
      (some "blue" :: List.replicate 9 none) ::
        List.replicate 18 (List.replicate 10 none)
    nextBlock := ⟨[[1]], "red"⟩
    RNG := ⟨0⟩
    score := 0
    level := 1
    highScore := 0
    gameEnd := false }

/-- Witness for C1's amended theorem. -/
theorem move_down_gameEnd_sets_flag_only_witness :
    0 < (1 : Int) ∧
      isCollision c1State.grid c1State.block c1State.blockX (c1State.blockY + 1) = true ∧
      isGameEnd (updateGrid c1State.grid c1State.block c1State.blockX c1State.blockY) = true ∧
      moveApply ⟨Dir.y, 1⟩ c1State = { c1State with gameEnd := true } :=
  ⟨by decide, by decide, by decide,
    move_down_gameEnd_sets_flag_only c1State 1 (by decide) (by decide) (by decide)⟩

/-- C1 (counterexample): at `c1State` the landing that ends the game leaves
the stored grid strictly different from the burned grid, contradicting the
claim that the returned grid equals the burn. -/
theorem move_down_gameEnd_discards_burn :
    isCollision c1State.grid c1State.block c1State.blockX (c1State.blockY + 1) = true ∧
      isGameEnd (updateGrid c1State.grid c1State.block c1State.blockX c1State.blockY) = true ∧
      (moveApply ⟨Dir.y, 1⟩ c1State).gameEnd = true ∧
      (moveApply ⟨Dir.y, 1⟩ c1State).grid ≠
        updateGrid c1State.grid c1State.block c1State.blockX c1State.blockY := by
  refine ⟨by decide, by decide, by decide, by decide⟩

/-- C6 (confirmed): on a downward collision whose burn leaves the top row
free, `Move.apply` clears the full rows of the burned grid, adds 100 points
per cleared row, recomputes the level as `score / 1000 + 1`, raises the high
score to the maximum, promotes the queued block, draws the new queued block
from the current RNG, resets the position to the spawn point and advances the
RNG by that one draw. -/
theorem move_down_lands_and_clears (s : State) (m : Int) (hm : 0 < m)
    (hc : isCollision s.grid s.block s.blockX (s.blockY + m) = true)
    (hg : isGameEnd (updateGrid s.grid s.block s.blockX s.blockY) = false) :
    moveApply ⟨Dir.y, m⟩ s =
      { s with
        block := s.nextBlock
        nextBlock := (randomBlock s.RNG).1
        blockX := Constants.STARTING_BLOCK_X
        blockY := 0
        RNG := (randomBlock s.RNG).2
        grid := updateGridAfterClearance
          (updateGrid s.grid s.block s.blockX s.blockY)
          (linesCleared (updateGrid s.grid s.block s.blockX s.blockY))
        score := s.score +
          (linesCleared (updateGrid s.grid s.block s.blockX s.blockY)).length * 100
        level := (s.score +
          (linesCleared (updateGrid s.grid s.block s.blockX s.blockY)).length * 100) / 1000 + 1
        highScore := max
          (s.score +
            (linesCleared (updateGrid s.grid s.block s.blockX s.blockY)).length * 100)
          s.highScore } := by
  simp only [moveApply]
  rw [if_pos]
  · rw [if_pos ⟨trivial, hm⟩, if_neg (by simp [hg])]
    rfl
  · simpa using hc

/-- An O block resting on the floor at the bottom-left corner of an otherwise
empty grid: one more step down collides, the burn leaves the top row free. -/
def c6State : State :=
  { block := ⟨[[1, 1], [1, 1]], "yellow"⟩
    blockX := 0
    blockY := 18
    grid := List.replicate 20 (List.replicate 10 none)
    nextBlock := ⟨[[0, 1, 0], [1, 1, 1], [0, 0, 0]], "purple"⟩
    RNG := ⟨1⟩
    score := 0
    level := 1
    highScore := 0
    gameEnd := false }

/-- Witness for C6 at `c6State`. -/
theorem move_down_lands_and_clears_witness :
    0 < (1 : Int) ∧
      isCollision c6State.grid c6State.block c6State.blockX (c6State.blockY + 1) = true ∧
      isGameEnd (updateGrid c6State.grid c6State.block c6State.blockX c6State.blockY) = false ∧
      moveApply ⟨Dir.y, 1⟩ c6State =
        { c6State with
          block := c6State.nextBlock
          nextBlock := (randomBlock c6State.RNG).1
          blockX := Constants.STARTING_BLOCK_X
          blockY := 0
          RNG := (randomBlock c6State.RNG).2
          grid := updateGridAfterClearance
            (updateGrid c6State.grid c6State.block c6State.blockX c6State.blockY)
            (linesCleared (updateGrid c6State.grid c6State.block c6State.blockX c6State.blockY))
          score := c6State.score +
            (linesCleared (updateGrid c6State.grid c6State.block c6State.blockX c6State.blockY)).length * 100
          level := (c6State.score +
            (linesCleared (updateGrid c6State.grid c6State.block c6State.blockX c6State.blockY)).length * 100) / 1000 + 1
          highScore := max
            (c6State.score +
              (linesCleared (updateGrid c6State.grid c6State.block c6State.blockX c6State.blockY)).length * 100)
            c6State.highScore } :=
  ⟨by decide, by decide, by decide,
    move_down_lands_and_clears c6State 1 (by decide) (by decide) (by decide)⟩

theorem inv_moveApply (mv : MoveA) (s : State)
    (h : s.level = s.score / 1000 + 1 ∧ s.score ≤ s.highScore) :
    (moveApply mv s).level = (moveApply mv s).score / 1000 + 1 ∧
      (moveApply mv s).score ≤ (moveApply mv s).highScore := by
  simp only [moveApply, scoreUpdates]
  repeat' split
  all_goals first
    | exact h
    | exact ⟨rfl, le_max_left _ _⟩

theorem inv_rotateApply (s : State)
    (h : s.level = s.score / 1000 + 1 ∧ s.score ≤ s.highScore) :
    (rotateApply s).level = (rotateApply s).score / 1000 + 1 ∧
      (rotateApply s).score ≤ (rotateApply s).highScore := by
  simp only [rotateApply]
  split
  · exact h
  · exact h

theorem inv_dropApply (s : State)
    (h : s.level = s.score / 1000 + 1 ∧ s.score ≤ s.highScore) :
    (dropApply s).level = (dropApply s).score / 1000 + 1 ∧
      (dropApply s).score ≤ (dropApply s).highScore := by
  simp only [dropApply]
  split
  · exact inv_moveApply _ s h
  · exact h

/-- C7 (confirmed): every state reachable from the initial state by any
finite sequence of Move, Rotate, Restart and Drop actions satisfies
`level = score / 1000 + 1` and `score ≤ highScore`. -/
theorem reachable_level_highScore_inv (ms : Nat) (s : State)
    (h : Reachable ms s) :
    s.level = s.score / 1000 + 1 ∧ s.score ≤ s.highScore := by
  induction h with
  | init => constructor <;> simp [initState, Constants.STARTING_LEVEL]
  | step hr a ih =>
    cases a with
    | move d mag => exact inv_moveApply ⟨d, mag⟩ _ ih
    | rot => exact inv_rotateApply _ ih
    | restart =>
      constructor <;>
        simp [applyAct, restartApply, initState, Constants.STARTING_LEVEL]
    | drop => exact inv_dropApply _ ih

/-- Witness for C7 at the initial state of the run seeded by 0. -/
theorem reachable_level_highScore_inv_witness :
    Reachable 0 (initState 0) ∧
      ((initState 0).level = (initState 0).score / 1000 + 1 ∧
        (initState 0).score ≤ (initState 0).highScore) :=
  ⟨Reachable.init, reachable_level_highScore_inv 0 (initState 0) Reachable.init⟩

/-- Spec-side description of `clearRows`: keep, in order, exactly the rows
whose index in the input grid is not listed (`keptRowsFrom i` walks a grid
whose first row has absolute index `i`). -/
def keptRowsFrom (i : Nat) : Grid → List Nat → Grid
  | [], _ => []
  | r :: g, rows =>
    if i ∈ rows then keptRowsFrom (i + 1) g rows
    else r :: keptRowsFrom (i + 1) g rows

def keptRows (g : Grid) (rows : List Nat) : Grid := keptRowsFrom 0 g rows

/-- Removing the listed indices back to front, so that each index refers to
the original grid. -/
def eraseAll (g : Grid) (rows : List Nat) : Grid :=
  rows.foldr (fun y h => h.eraseIdx y) g

theorem eraseIdx_comm (X : List α) (y j : Nat) (h : y < j) :
    (X.eraseIdx j).eraseIdx y = (X.eraseIdx y).eraseIdx (j - 1) := by
  induction X generalizing y j with
  | nil => simp
  | cons a X ih =>
    cases y with
    | zero =>
      obtain ⟨j1, rfl⟩ : ∃ j1, j = j1 + 1 := ⟨j - 1, by omega⟩
      simp
    | succ y1 =>
      obtain ⟨j1, rfl⟩ : ∃ j1, j = j1 + 1 := ⟨j - 1, by omega⟩
      have hy : y1 < j1 := by omega
      obtain ⟨j2, rfl⟩ : ∃ j2, j1 = j2 + 1 := ⟨j1 - 1, by omega⟩
      simp only [List.eraseIdx_cons_succ, Nat.add_sub_cancel]
      rw [ih y1 (j2 + 1) hy]
      simp

theorem eraseAll_cons_erase (rest : List Nat) (g : Grid) (y : Nat)
    (h : ∀ j ∈ rest, y < j) :
    eraseAll (emptyRow :: g.eraseIdx y) rest =
      emptyRow :: (eraseAll g rest).eraseIdx y := by
  induction rest with
  | nil => rfl
  | cons j rest ih =>
    have hj : y < j := h j (List.mem_cons_self j rest)
    have hrest : ∀ k ∈ rest, y < k := fun k hk => h k (List.mem_cons_of_mem j hk)
    show (eraseAll (emptyRow :: g.eraseIdx y) rest).eraseIdx j = _
    rw [ih hrest]
    obtain ⟨j1, rfl⟩ : ∃ j1, j = j1 + 1 := ⟨j - 1, by omega⟩
    rw [List.eraseIdx_cons_succ]
    show emptyRow :: ((eraseAll g rest).eraseIdx y).eraseIdx j1 =
      emptyRow :: ((eraseAll g rest).eraseIdx (j1 + 1)).eraseIdx y
    rw [eraseIdx_comm (eraseAll g rest) y (j1 + 1) hj]
    simp

theorem clearFold_eq (rows : List Nat) (g : Grid)
    (hs : List.Pairwise (· < ·) rows) :
    updateGridAfterClearance g rows =
      List.replicate rows.length emptyRow ++ eraseAll g rows := by
  induction rows generalizing g with
  | nil => rfl
  | cons y rest ih =>
    rw [List.pairwise_cons] at hs
    show updateGridAfterClearance (emptyRow :: g.eraseIdx y) rest = _
    rw [ih (emptyRow :: g.eraseIdx y) hs.2, eraseAll_cons_erase rest g y hs.1]
    show _ = List.replicate (rest.length + 1) emptyRow ++ (eraseAll g rest).eraseIdx y
    simp [List.replicate_succ', List.append_assoc]

theorem keptRowsFrom_nil_rows (g : Grid) : ∀ i, keptRowsFrom i g [] = g := by
  induction g with
  | nil => intro i; rfl
  | cons r g ih =>
    intro i
    simp [keptRowsFrom, ih]

theorem keptRowsFrom_cons_lt (g : Grid) (y : Nat) (rows : List Nat) :
    ∀ i, y < i → keptRowsFrom i g (y :: rows) = keptRowsFrom i g rows := by
  induction g with
  | nil => intro i _; rfl
  | cons r g ih =>
    intro i h
    have hne : ¬i = y := by omega
    simp only [keptRowsFrom, List.mem_cons, hne, false_or]
    rw [ih (i + 1) (by omega)]

theorem keptRowsFrom_eraseIdx (g : Grid) (rows : List Nat) (y : Nat) :
    ∀ i, i ≤ y → (∀ j ∈ rows, y < j) →
      (keptRowsFrom i g rows).eraseIdx (y - i) = keptRowsFrom i g (y :: rows) := by
  induction g with
  | nil => intro i _ _; rfl
  | cons r g ih =>
    intro i hi hr
    by_cases hiy : i = y
    · subst hiy
      have hni : i ∉ rows := fun hm => absurd (hr i hm) (lt_irrefl i)
      simp only [keptRowsFrom, if_neg hni,
        if_pos (List.mem_cons_self i rows), Nat.sub_self,
        List.eraseIdx_cons_zero]
      exact (keptRowsFrom_cons_lt g i rows (i + 1) (Nat.lt_succ_self i)).symm
    · have hlt : i < y := lt_of_le_of_ne hi hiy
      have hni : i ∉ rows := fun hm => absurd (hr i hm) (by omega)
      have hny : i ∉ y :: rows := by
        intro hm
        rcases List.mem_cons.mp hm with h1 | h1
        · exact hiy h1
        · exact hni h1
      simp only [keptRowsFrom, if_neg hni, if_neg hny]
      obtain ⟨d, hd⟩ : ∃ d, y - i = d + 1 := ⟨y - i - 1, by omega⟩
      rw [hd, List.eraseIdx_cons_succ]
      have hd2 : y - (i + 1) = d := by omega
      rw [← hd2]
      rw [ih (i + 1) (by omega) hr]

theorem eraseAll_eq_keptRows (rows : List Nat) (g : Grid)
    (hs : List.Pairwise (· < ·) rows) :
    eraseAll g rows = keptRows g rows := by
  induction rows with
  | nil => exact (keptRowsFrom_nil_rows g 0).symm
  | cons y rest ih =>
    rw [List.pairwise_cons] at hs
    show (eraseAll g rest).eraseIdx y = _
    rw [ih hs.2]
    have := keptRowsFrom_eraseIdx g rest y 0 (Nat.zero_le y) hs.1
    rw [Nat.sub_zero] at this
    exact this

theorem clearFold_length (rows : List Nat) (g : Grid)
    (hb : ∀ i ∈ rows, i < g.length) :
    (updateGridAfterClearance g rows).length = g.length := by
  induction rows generalizing g with
  | nil => rfl
  | cons y rest ih =>
    have hy : y < g.length := hb y (List.mem_cons_self y rest)
    have hlen : (emptyRow :: g.eraseIdx y).length = g.length := by
      simp [List.length_eraseIdx, hy]
      omega
    show (updateGridAfterClearance (emptyRow :: g.eraseIdx y) rest).length = _
    rw [ih (emptyRow :: g.eraseIdx y)
      (fun i hi => by rw [hlen]; exact hb i (List.mem_cons_of_mem y hi)), hlen]

theorem clearFold_width (rows : List Nat) (g : Grid)
    (hw : ∀ r ∈ g, r.length = 10) :
    ∀ r ∈ updateGridAfterClearance g rows, r.length = 10 := by
  induction rows generalizing g with
  | nil => exact hw
  | cons y rest ih =>
    apply ih
    intro r hr
    rcases List.mem_cons.mp hr with h1 | h1
    · rw [h1]
      simp [emptyRow]
    · exact hw r (List.eraseIdx_subset g y h1)

/-- C8 (confirmed): on a strictly ascending, in-range index list (as the
full-row detector produces), `updateGridAfterClearance` keeps exactly the
non-indexed rows in order below a block of freshly inserted empty rows, one
per removed row, preserving the grid's height and width. -/
theorem clearRows_removes_indexed_rows (g : Grid) (rows : List Nat)
    (hs : List.Pairwise (· < ·) rows)
    (hb : ∀ i ∈ rows, i < g.length)
    (hw : ∀ r ∈ g, r.length = 10) :
    updateGridAfterClearance g rows =
        List.replicate rows.length emptyRow ++ keptRows g rows ∧
      (updateGridAfterClearance g rows).length = g.length ∧
      ∀ r ∈ updateGridAfterClearance g rows, r.length = 10 :=
  ⟨by rw [clearFold_eq rows g hs, eraseAll_eq_keptRows rows g hs],
    clearFold_length rows g hb, clearFold_width rows g hw⟩

/-- A 3-row-high example grid (width 10) for the C8 witness. -/
def c8Grid : Grid :=
  [List.replicate 10 (some "red"), List.replicate 10 none,
    List.replicate 10 (some "blue")]

/-- Witness for C8: clearing rows 0 and 2 of `c8Grid`. -/
theorem clearRows_removes_indexed_rows_witness :
    List.Pairwise (· < ·) [0, 2] ∧ (∀ i ∈ [0, 2], i < c8Grid.length) ∧
      (∀ r ∈ c8Grid, r.length = 10) ∧
      (updateGridAfterClearance c8Grid [0, 2] =
          List.replicate 2 emptyRow ++ keptRows c8Grid [0, 2] ∧
        (updateGridAfterClearance c8Grid [0, 2]).length = c8Grid.length ∧
        ∀ r ∈ updateGridAfterClearance c8Grid [0, 2], r.length = 10) :=
  ⟨by decide, by decide, by decide,
    clearRows_removes_indexed_rows c8Grid [0, 2] (by decide) (by decide) (by decide)⟩

theorem anyIdx_eq_true (l : List α) (f : Nat → α → Bool) :
    anyIdx l f = true ↔ ∃ i x, l.get? i = some x ∧ f i x = true := by
  induction l generalizing f with
  | nil => simp [anyIdx]
  | cons a l ih =>
    simp only [anyIdx, Bool.or_eq_true, ih]
    constructor
    · rintro (h | ⟨i, x, hg, hf⟩)
      · exact ⟨0, a, rfl, h⟩
      · exact ⟨i + 1, x, hg, hf⟩
    · rintro ⟨i, x, hg, hf⟩
      cases i with
      | zero =>
        obtain rfl : a = x := by simpa using hg
        exact Or.inl hf
      | succ i => exact Or.inr ⟨i, x, hg, hf⟩

/-- `isCollision` holds exactly when some filled shape cell lands out of
bounds or on an occupied grid cell. -/
theorem isCollision_eq_true (grid : Grid) (block : Block) (x y : Int) :
    isCollision grid block x y = true ↔
      ∃ r row c cell, block.shape.get? r = some row ∧ row.get? c = some cell ∧
        cell ≠ 0 ∧
        (x + c < 0 ∨ Constants.GRID_WIDTH ≤ x + c ∨ y + r < 0 ∨
          Constants.GRID_HEIGHT ≤ y + r ∨ cellOcc grid (y + r) (x + c) = true) := by
  unfold isCollision
  rw [anyIdx_eq_true]
  constructor
  · rintro ⟨r, row, hr, hrow⟩
    rw [anyIdx_eq_true] at hrow
    obtain ⟨c, cell, hc, hcell⟩ := hrow
    by_cases hz : cell = 0
    · rw [if_pos hz] at hcell
      cases hcell
    · rw [if_neg hz] at hcell
      simp only [Bool.or_eq_true, decide_eq_true_eq] at hcell
      exact ⟨r, row, c, cell, hr, hc, hz, by tauto⟩
  · rintro ⟨r, row, c, cell, hr, hc, hz, hcond⟩
    refine ⟨r, row, hr, ?_⟩
    rw [anyIdx_eq_true]
    refine ⟨c, cell, hc, ?_⟩
    rw [if_neg hz]
    simp only [Bool.or_eq_true, decide_eq_true_eq]
    tauto

/-- The spec-side predicate "the shape contains at least one filled cell". -/
def hasFilled (shape : Shape) : Bool :=
  shape.any (fun row => row.any (fun cell => decide (cell ≠ 0)))

/-- With a filled cell in the shape, every position at or below the bottom of
the grid collides. -/
theorem isCollision_of_ge (grid : Grid) (block : Block) (x y : Int)
    (hf : hasFilled block.shape = true) (hy : Constants.GRID_HEIGHT ≤ y) :
    isCollision grid block x y = true := by
  unfold hasFilled at hf
  rw [List.any_eq_true] at hf
  obtain ⟨row, hrow, hcell⟩ := hf
  rw [List.any_eq_true] at hcell
  obtain ⟨cell, hcellm, hz⟩ := hcell
  obtain ⟨r, hr⟩ := List.mem_iff_get?.mp hrow
  obtain ⟨c, hc⟩ := List.mem_iff_get?.mp hcellm
  rw [decide_eq_true_eq] at hz
  rw [isCollision_eq_true]
  refine ⟨r, row, c, cell, hr, hc, hz, ?_⟩
  right; right; right; left
  have : (0 : Int) ≤ r := Int.natCast_nonneg r
  omega

/-- When some collision exists within `fuel` steps below `y`, the walk of
`findNewYF` stops at the least `z ≥ y` whose next step down collides. -/
theorem findNewYF_succeeds (grid : Grid) (block : Block) (x : Int) :
    ∀ (fuel : Nat) (y : Int),
      (∃ n : Nat, n < fuel ∧ isCollision grid block x (y + n + 1) = true) →
      ∃ ny, findNewYF fuel grid block x y = some ny ∧
        IsLeast {z : Int | y ≤ z ∧ isCollision grid block x (z + 1) = true} ny := by
  intro fuel
  induction fuel with
  | zero =>
    rintro y ⟨n, hn, -⟩
    omega
  | succ fuel ih =>
    rintro y ⟨n, hn, hcol⟩
    by_cases h0 : isCollision grid block x (y + 1) = true
    · refine ⟨y, by simp [findNewYF, h0], ⟨le_refl y, h0⟩, ?_⟩
      rintro z ⟨hz, -⟩
      exact hz
    · have hn0 : n ≠ 0 := by
        rintro rfl
        exact h0 (by simpa using hcol)
      obtain ⟨ny, hfind, hleast⟩ := ih (y + 1) ⟨n - 1, by omega, by
        have he : y + 1 + ((n - 1 : Nat) : Int) + 1 = y + n + 1 := by
          have : (1 : Nat) ≤ n := by omega
          push_cast [this]
          ring
        rw [he]
        exact hcol⟩
      refine ⟨ny, ?_, ⟨?_, hleast.1.2⟩, ?_⟩
      · simp only [findNewYF, h0, if_false]
        exact hfind
      · have := hleast.1.1
        omega
      · rintro z ⟨hz, hzc⟩
        rcases eq_or_lt_of_le hz with rfl | hlt
        · exact absurd hzc h0
        · exact hleast.2 ⟨by omega, hzc⟩

/-- With a filled cell, the drop fuel `(GRID_HEIGHT + 1 - y).toNat + 1`
always suffices and the walk lands on the least resting row. -/
theorem findNewYF_of_hasFilled (grid : Grid) (block : Block) (x y : Int)
    (hf : hasFilled block.shape = true) :
    ∃ ny, findNewYF ((Constants.GRID_HEIGHT + 1 - y).toNat + 1) grid block x y
        = some ny ∧
      IsLeast {z : Int | y ≤ z ∧ isCollision grid block x (z + 1) = true} ny := by
  apply findNewYF_succeeds
  refine ⟨(Constants.GRID_HEIGHT - 1 - y).toNat, ?_, ?_⟩
  · simp only [Constants.GRID_HEIGHT]
    omega
  · apply isCollision_of_ge grid block x _ hf
    simp only [Constants.GRID_HEIGHT]
    omega

/-- C9 (amended): whenever the active shape has a filled cell, `Drop.apply`
equals `Move.apply` downward by `newY - blockY`, where `newY` is the
*smallest* `z ≥ blockY` such that the piece collides one step below `z` (the
row reached by walking down while the next step is collision-free). -/
theorem dropApply_eq_move_to_least_restingY (s : State)
    (hf : hasFilled s.block.shape = true) :
    ∃ newY, IsLeast {z : Int | s.blockY ≤ z ∧
        isCollision s.grid s.block s.blockX (z + 1) = true} newY ∧
      dropApply s = moveApply ⟨Dir.y, newY - s.blockY⟩ s := by
  obtain ⟨ny, hfind, hleast⟩ :=
    findNewYF_of_hasFilled s.grid s.block s.blockX s.blockY hf
  refine ⟨ny, hleast, ?_⟩
  unfold dropApply dropFuel
  rw [hfind]

/-- Witness for C9's amended theorem at the initial state of seed 0. -/
theorem dropApply_eq_move_to_least_restingY_witness :
    hasFilled (initState 0).block.shape = true ∧
      ∃ newY, IsLeast {z : Int | (initState 0).blockY ≤ z ∧
          isCollision (initState 0).grid (initState 0).block
            (initState 0).blockX (z + 1) = true} newY ∧
        dropApply (initState 0) =
          moveApply ⟨Dir.y, newY - (initState 0).blockY⟩ (initState 0) :=
  ⟨by decide, dropApply_eq_move_to_least_restingY (initState 0) (by decide)⟩

/-- C9 (counterexample): the claim's "largest `y ≥ blockY` such that the
piece collides at `y + 1`" does not exist, at the initial state of seed 0 (or
any state whose shape has a filled cell): every row at or below the grid's
bottom collides, so the colliding rows are unbounded above. -/
theorem no_greatest_colliding_row :
    ¬∃ yg, IsGreatest {z : Int | (initState 0).blockY ≤ z ∧
        isCollision (initState 0).grid (initState 0).block
          (initState 0).blockX (z + 1) = true} yg := by
  rintro ⟨yg, hmem, hub⟩
  have hmax : yg ≤ max yg 20 := le_max_left yg 20
  have h1 : max yg 20 + 1 ∈ {z : Int | (initState 0).blockY ≤ z ∧
      isCollision (initState 0).grid (initState 0).block
        (initState 0).blockX (z + 1) = true} := by
    constructor
    · have := hmem.1
      omega
    · apply isCollision_of_ge _ _ _ _ (by decide)
      have h20 : (20 : Int) ≤ max yg 20 := le_max_right yg 20
      simp only [Constants.GRID_HEIGHT]
      omega
  have h2 := hub h1
  omega

/-- C10 (confirmed): the recursion of `Drop.findNewY` terminates (for some
fuel) exactly when the shape has a filled cell: a filled cell forces a
collision once the walk passes the grid's bottom, while with an all-zero
shape `isCollision` is false everywhere and the walk never stops. -/
theorem findNewY_terminates_iff_hasFilled (grid : Grid) (block : Block)
    (x y : Int) :
    (∃ fuel ny, findNewYF fuel grid block x y = some ny) ↔
      hasFilled block.shape = true := by
  constructor
  · rintro ⟨fuel, ny, hfind⟩
    by_contra hnf
    have hall : ∀ (z : Int), isCollision grid block x z = false := by
      intro z
      by_contra hc
      have hc2 : isCollision grid block x z = true := by
        revert hc
        cases isCollision grid block x z <;> simp
      obtain ⟨r, row, c, cell, hr, hc3, hz, -⟩ :=
        (isCollision_eq_true grid block x z).mp hc2
      apply hnf
      unfold hasFilled
      rw [List.any_eq_true]
      refine ⟨row, List.mem_iff_get?.mpr ⟨r, hr⟩, ?_⟩
      rw [List.any_eq_true]
      exact ⟨cell, List.mem_iff_get?.mpr ⟨c, hc3⟩, by simpa using hz⟩
    have hnone : ∀ (fuel : Nat) (z : Int), findNewYF fuel grid block x z = none := by
      intro fuel
      induction fuel with
      | zero => intro z; rfl
      | succ fuel ih =>
        intro z
        simp only [findNewYF, hall (z + 1)]
        simpa using ih (z + 1)
    rw [hnone fuel y] at hfind
    cases hfind
  · intro hf
    obtain ⟨ny, hfind, -⟩ := findNewYF_of_hasFilled grid block x y hf
    exact ⟨(Constants.GRID_HEIGHT + 1 - y).toNat + 1, ny, hfind⟩

/-- C4 (counterexample): from `score = 500, highScore = 300`, `Restart` keeps
`highScore = 300`; it does not produce the claimed 500. -/
theorem restart_does_not_take_max :
    ({ initState 0 with score := 500, highScore := 300 } : State).score = 500 ∧
      ({ initState 0 with score := 500, highScore := 300 } : State).highScore = 300 ∧
      (restartApply 0 { initState 0 with score := 500, highScore := 300 }).score = 0 ∧
      (restartApply 0 { initState 0 with score := 500, highScore := 300 }).gameEnd = false ∧
      (restartApply 0 { initState 0 with score := 500, highScore := 300 }).highScore = 300 ∧
      (restartApply 0 { initState 0 with score := 500, highScore := 300 }).highScore ≠ 500 :=
  ⟨rfl, rfl, rfl, rfl, rfl, by decide⟩

theorem reachable_foldl (ms : Nat) (acts : List Act) (s : State)
    (h : Reachable ms s) :
    Reachable ms (acts.foldl (fun t a => applyAct ms a t) s) := by
  induction acts generalizing s with
  | nil => exact h
  | cons a acts ih => exact ih _ (Reachable.step h a)

/-- Stacking actions from the initial state of the run seeded by wall-clock
millisecond 1: drop-and-land eleven pieces at the spawn column.  The eleventh
landing burns a block whose top cell reaches row 0, so the run ends. -/
def c2Acts : List Act :=
  (List.replicate 11 [Act.drop, Act.move Dir.y 1]).flatten

def c2End : State := c2Acts.foldl (fun s a => applyAct 1 a s) (initState 1)

/-- Post-game-over inputs: two nudges right, a hard drop and a landing tick —
none of them a Restart. -/
def c2Suffix : List Act :=
  [Act.move Dir.x 1, Act.move Dir.x 1, Act.drop, Act.move Dir.y 1]

def c2After : State := c2Suffix.foldl (fun s a => applyAct 1 a s) c2End

set_option maxRecDepth 100000 in
/-- C2 (code bug): `c2End` is reachable from the initial state and has
`gameEnd = true`, yet a Restart-free action sequence afterwards changes the
grid — the game-over state is not frozen, because no action consults the
`gameEnd` flag. -/
theorem gameEnd_state_not_frozen :
    Reachable 1 c2End ∧ c2End.gameEnd = true ∧
      (∀ a ∈ c2Suffix, a ≠ Act.restart) ∧
      c2After.gameEnd = true ∧ c2After.grid ≠ c2End.grid :=
  ⟨reachable_foldl 1 c2Acts (initState 1) Reachable.init,
    by decide, by decide, by decide, by decide⟩
